import Mathlib

/-!
Verification of the SWC neuron import core (`src/__init__.py`,
`SwcNeuronImporter.load_swc_file` and `create_node_spheres`).

The Python code is shallowly embedded: the importer object's mutable
fields become the record `SwcState`; the per-line loop of
`load_swc_file` becomes a fold (`parseLines` / `stepLine`), and the
edge-resolution loop becomes `resolveEdges`.  Python `float` values are
represented exactly as rationals (`Rat`); no claim depends on rounding.
Python dicts (insertion ordered, re-assignment keeps the original key
position but replaces the value) are modelled as association lists with
`dictInsert` / `dictLookup`.
-/

set_option autoImplicit false

/-- A 3-D position, as stored in `self.vertices` (source line 73/85). -/
abbrev Vec3 := Rat × Rat × Rat

/-- One parsed SWC record, the dict built at source lines 76-82. -/
structure NodeRecord where
  id : Int
  type : Int
  xyz : Vec3
  radius : Rat
  parent_id : Int
deriving DecidableEq

/-- Python whitespace for `str.split()` with no argument:
space, tab, newline, carriage return, vertical tab, form feed. -/
def isPyWhitespace (c : Char) : Bool :=
  c == ' ' || c == '\t' || c == '\n' || c == '\r' || c == '\x0b' || c == '\x0c'

/-- Splitting on runs of whitespace: accumulate the current word
(reversed) and close it at each whitespace run; no empty words. -/
def splitWords : List Char → List Char → List (List Char)
  | acc, [] => if acc.isEmpty then [] else [acc.reverse]
  | acc, c :: rest =>
    if isPyWhitespace c then
      if acc.isEmpty then splitWords [] rest else acc.reverse :: splitWords [] rest
    else splitWords (c :: acc) rest

/-- `line.split()` (source line 68): split on runs of arbitrary
whitespace, producing no empty pieces. -/
def pySplit (s : String) : List String :=
  (splitWords [] s.toList).map (fun w => String.mk w)

/-- Value of a digit string, most significant first. -/
def natOfDigits (l : List Char) : Nat :=
  l.foldl (fun a c => 10 * a + (c.toNat - 48)) 0

/-- Model of Python `int(token)` on a whitespace-free token (source
lines 71, 72, 75): an optional sign followed by one or more decimal
digits.  (Python additionally strips surrounding whitespace and allows
underscore digit grouping; neither can occur in a token produced by
`pySplit`, respectively plays no role in any claim.) -/
def parsePyInt (s : String) : Option Int :=
  match s.toList with
  | '+' :: r =>
    if !r.isEmpty && r.all Char.isDigit then some ((natOfDigits r : Nat) : Int) else none
  | '-' :: r =>
    if !r.isEmpty && r.all Char.isDigit then some (-((natOfDigits r : Nat) : Int)) else none
  | r =>
    if !r.isEmpty && r.all Char.isDigit then some ((natOfDigits r : Nat) : Int) else none

/-- Exponent part of a float literal: after the `e`/`E`, an optional
sign and one or more digits; scales the numerator or the denominator
of the pending numerator/denominator pair by the power of ten. -/
def parseExpScaled (m den : Nat) (r : List Char) : Option (Nat × Nat) :=
  let signAndDigits : Bool × List Char :=
    match r with
    | '+' :: r2 => (true, r2)
    | '-' :: r2 => (false, r2)
    | r2 => (true, r2)
  let pos := signAndDigits.1
  let ds := signAndDigits.2
  if ds.isEmpty || !ds.all Char.isDigit then none
  else if pos then some (m * 10 ^ natOfDigits ds, den)
  else some (m, den * 10 ^ natOfDigits ds)

/-- Unsigned part of Python `float(token)` as an exact
numerator/denominator pair: digits, an optional decimal point with
further digits, and an optional exponent.  At least one digit must be
present before the exponent. -/
def parsePyFloatParts (cs : List Char) : Option (Nat × Nat) :=
  let ip := cs.takeWhile Char.isDigit
  let rest1 := cs.dropWhile Char.isDigit
  let fracAndRest : List Char × List Char :=
    match rest1 with
    | '.' :: r => (r.takeWhile Char.isDigit, r.dropWhile Char.isDigit)
    | _ => ([], rest1)
  let fp := fracAndRest.1
  let rest2 := fracAndRest.2
  if ip.isEmpty && fp.isEmpty then none
  else
    let m : Nat := natOfDigits (ip ++ fp)
    let den : Nat := 10 ^ fp.length
    match rest2 with
    | [] => some (m, den)
    | 'e' :: r => parseExpScaled m den r
    | 'E' :: r => parseExpScaled m den r
    | _ => none

/-- Model of Python `float(token)` on a whitespace-free token (source
lines 73, 74): optional sign, then digits with optional fraction and
exponent, represented exactly as a rational.  (The special tokens
`inf`/`infinity`/`nan` and underscore grouping are not modelled; no
claim involves them.) -/
def parsePyFloat (s : String) : Option Rat :=
  match s.toList with
  | '+' :: r => (parsePyFloatParts r).map (fun p => mkRat p.1 p.2)
  | '-' :: r => (parsePyFloatParts r).map (fun p => mkRat (-(p.1 : Int)) p.2)
  | r => (parsePyFloatParts r).map (fun p => mkRat p.1 p.2)

/-- A failed numeric conversion.  Python raises `ValueError` whose
payload is determined by the conversion attempted (`int` or `float`)
and the offending token — nothing else (in particular neither the line
number nor the raw line). -/
inductive ParseError where
  | intErr : String → ParseError
  | floatErr : String → ParseError
deriving DecidableEq

instance {ε α : Type} [DecidableEq ε] [DecidableEq α] : DecidableEq (Except ε α) := fun a b =>
  match a, b with
  | .ok x, .ok y =>
    if h : x = y then .isTrue (by rw [h]) else .isFalse (by intro hc; cases hc; exact h rfl)
  | .error x, .error y =>
    if h : x = y then .isTrue (by rw [h]) else .isFalse (by intro hc; cases hc; exact h rfl)
  | .ok _, .error _ => .isFalse (by intro hc; cases hc)
  | .error _, .ok _ => .isFalse (by intro hc; cases hc)

/-- `int(field)` as the importer uses it: a conversion failure raises. -/
def toIntE (s : String) : Except ParseError Int :=
  match parsePyInt s with
  | some n => .ok n
  | none => .error (.intErr s)

/-- `float(field)` as the importer uses it: a conversion failure raises. -/
def toFloatE (s : String) : Except ParseError Rat :=
  match parsePyFloat s with
  | some q => .ok q
  | none => .error (.floatErr s)

/-- Field conversion of source lines 71-75, in Python evaluation order:
`int(fields[0])`, `int(fields[1])`, `float(fields[2..4])`,
`float(fields[5])`, `int(fields[6])`.  Only the first seven fields are
ever read. -/
def parseFields (fields : List String) : Except ParseError NodeRecord :=
  match toIntE (fields.getD 0 "") with
  | .error e => .error e
  | .ok id =>
    match toIntE (fields.getD 1 "") with
    | .error e => .error e
    | .ok ty =>
      match toFloatE (fields.getD 2 "") with
      | .error e => .error e
      | .ok x =>
        match toFloatE (fields.getD 3 "") with
        | .error e => .error e
        | .ok y =>
          match toFloatE (fields.getD 4 "") with
          | .error e => .error e
          | .ok z =>
            match toFloatE (fields.getD 5 "") with
            | .error e => .error e
            | .ok radius =>
              match toIntE (fields.getD 6 "") with
              | .error e => .error e
              | .ok parent_id =>
                .ok { id := id, type := ty, xyz := (x, y, z), radius := radius,
                      parent_id := parent_id }

/-- `line.startswith('#')` (source line 66): the line's first
character is `#`; the empty line does not start with `#`. -/
def startsWithHash (line : String) : Bool :=
  match line.toList with
  | '#' :: _ => true
  | _ => false

/-- One line of the reading loop (source lines 65-75): comment lines
and lines with fewer than seven fields are skipped (`.ok none`); other
lines are converted, propagating any conversion error. -/
def parseLine (line : String) : Except ParseError (Option NodeRecord) :=
  if startsWithHash line then .ok none
  else
    let fields := pySplit line
    if fields.length < 7 then .ok none
    else (parseFields fields).map some

/-- The importer's mutable fields relevant to the core
(`self.nodes`, `self.first_node`, `self.index_from_id`,
`self.vertices`, the local `node_count`, and `self.edges`). -/
structure SwcState where
  nodes : List (Int × NodeRecord)
  first_node : Option NodeRecord
  index_from_id : List (Int × Nat)
  vertices : List Vec3
  node_count : Nat
  edges : List (Nat × Nat)
deriving DecidableEq

/-- The state as (re-)initialised at source lines 59-62, 64 and 89. -/
def initState : SwcState :=
  { nodes := [], first_node := none, index_from_id := [], vertices := [],
    node_count := 0, edges := [] }

/-- Python `d[k] = v` on an insertion-ordered dict: if the key is
present its value is replaced in place (original position kept),
otherwise the pair is appended. -/
def dictInsert {α : Type} (l : List (Int × α)) (k : Int) (v : α) : List (Int × α) :=
  if k ∈ l.map Prod.fst then l.map (fun p => if p.1 = k then (k, v) else p)
  else l ++ [(k, v)]

/-- Python `d[k]` / `k in d` on the association-list dict model. -/
def dictLookup {α : Type} (l : List (Int × α)) (k : Int) : Option α :=
  match l with
  | [] => none
  | p :: rest => if p.1 = k then some p.2 else dictLookup rest k

/-- The body of the reading loop for one accepted record (source lines
76-87): store the record under its id (last-wins content), set
`first_node` only if unset, unconditionally append a vertex slot,
unconditionally point `index_from_id[id]` at the current count, and
bump the count. -/
def insertRecord (st : SwcState) (r : NodeRecord) : SwcState :=
  { st with
    nodes := dictInsert st.nodes r.id r,
    first_node := match st.first_node with | none => some r | some f => some f,
    vertices := st.vertices ++ [r.xyz],
    index_from_id := dictInsert st.index_from_id r.id st.node_count,
    node_count := st.node_count + 1 }

/-- One iteration of the reading loop: skipped lines leave the state
unchanged; conversion errors propagate (the Python exception). -/
def stepLine (st : SwcState) (line : String) : Except ParseError SwcState :=
  match parseLine line with
  | .error e => .error e
  | .ok none => .ok st
  | .ok (some r) => .ok (insertRecord st r)

/-- The whole reading loop over the file's lines. -/
def parseLines : SwcState → List String → Except ParseError SwcState
  | st, [] => .ok st
  | st, line :: rest =>
    match stepLine st line with
    | .error e => .error e
    | .ok st2 => parseLines st2 rest

/-- The edge produced for one table entry, if any (source lines 91-95):
an edge exists exactly when the entry's `parent_id` is a key of
`index_from_id`; its endpoints are the positional indices of the entry
and of the parent.  (`index_from_id[id]` is total in Python only
because every stored id was indexed; the `getD 0` default is never hit
on loader-produced states.) -/
def edgeOf (index : List (Int × Nat)) (p : Int × NodeRecord) : Option (Nat × Nat) :=
  match dictLookup index p.2.parent_id with
  | none => none
  | some v2 => some ((dictLookup index p.1).getD 0, v2)

/-- One iteration of the edge loop: append the entry's edge, if any. -/
def edgeStep (index : List (Int × Nat)) (acc : List (Nat × Nat)) (p : Int × NodeRecord) :
    List (Nat × Nat) :=
  match edgeOf index p with
  | none => acc
  | some e => acc ++ [e]

/-- The edge-resolution loop of source lines 89-95: iterate the node
table in insertion order, appending one edge per entry whose parent id
is in the positional index. -/
def resolveEdges (nodes : List (Int × NodeRecord)) (index : List (Int × Nat)) :
    List (Nat × Nat) :=
  nodes.foldl (edgeStep index) []

/-- `load_swc_file` (source lines 58-96): reset every container, read
all lines into the table, then resolve edges.  The incoming object
state `self` is irrelevant to the result because lines 59-62 and 89
overwrite every field read by the core. -/
def load_swc_file (self : SwcState) (lines : List String) : Except ParseError SwcState :=
  let _ := self
  match parseLines initState lines with
  | .error e => .error e
  | .ok st => .ok { st with edges := resolveEdges st.nodes st.index_from_id }

/-- Observe the state produced by a run; a raised exception leaves no
datasets, observed here as the empty initial state. -/
def getState (e : Except ParseError SwcState) : SwcState :=
  match e with
  | .ok st => st
  | .error _ => initState

/-- Did the run succeed? -/
def exceptOk (e : Except ParseError SwcState) : Bool :=
  match e with
  | .ok _ => true
  | .error _ => false

/-- The square face built for one node by `create_node_spheres`
(source lines 108-114): four corners at distance `0.5 * radius` from
the node position in the x-y plane. -/
def nodeQuad (d : NodeRecord) : List Vec3 :=
  let x := d.xyz.1
  let y := d.xyz.2.1
  let z := d.xyz.2.2
  let r := (1 / 2 : Rat) * d.radius
  [(x - r, y - r, z), (x - r, y + r, z), (x + r, y + r, z), (x + r, y - r, z)]

/-- The quads of `create_node_spheres` (source lines 104-115), one per
table entry in insertion order; the flat vertex list groups the corners
in consecutive fours, `faces[i] = [4i, 4i+1, 4i+2, 4i+3]`. -/
def create_node_spheres (nodes : List (Int × NodeRecord)) : List (List Vec3) :=
  nodes.map (fun p => nodeQuad p.2)

/-- Center of a marker quad, read back off two opposite corners. -/
def quadCenter (q : List Vec3) : Vec3 :=
  let a := q.getD 0 (0, 0, 0)
  let c := q.getD 2 (0, 0, 0)
  ((a.1 + c.1) / 2, (a.2.1 + c.2.1) / 2, (a.2.2 + c.2.2) / 2)

/-- The marker dataset: one sized marker per table entry, in insertion
order, centred where `create_node_spheres` puts the entry's quad and
carrying the entry's radius (source lines 106-115). -/
def markerDataset (nodes : List (Int × NodeRecord)) : List (Vec3 × Rat) :=
  nodes.map (fun p => (quadCenter (nodeQuad p.2), p.2.radius))

/-- The records accepted by the reading loop, in file order: one per
non-comment line with at least seven convertible fields.  (Meaningful
when no line raises; used to state properties of successful runs.) -/
def acceptedRecords (lines : List String) : List NodeRecord :=
  lines.filterMap (fun line =>
    match parseLine line with
    | .ok (some r) => some r
    | _ => none)

/-- Number of effective roots of a table: entries whose `parent_id` is
not a key of the positional index. -/
def rootCount (nodes : List (Int × NodeRecord)) (index : List (Int × Nat)) : Nat :=
  nodes.countP (fun p => (dictLookup index p.2.parent_id).isNone)

/-- The Tree Resolver contract as the specification states it (§4.3):
for every record, in insertion order, look the record's `parent_id` up
in the positional index; if present emit `(self_index, parent_index)`,
otherwise emit nothing — with no other test (in particular none on the
literal `-1` sentinel) and no sorting. -/
def resolverSpec (nodes : List (Int × NodeRecord)) (index : List (Int × Nat)) :
    List (Nat × Nat) :=
  nodes.filterMap (edgeOf index)

/-- The duplicate-id scenario of the specification (§8): id 5 appears
twice, first at `(0,0,0)` radius 1, then at `(9,9,9)` radius 2. -/
def dupLines : List String := ["5 1 0 0 0 1 -1", "5 1 9 9 9 2 -1"]

/-- A one-record file whose record is its own parent. -/
def selfLoopLines : List String := ["1 1 0 0 0 1 1"]

/-- A child record on an earlier line than its parent's record. -/
def forwardLines : List String := ["2 3 1 0 0 0.5 1", "1 1 0 0 0 1 -1"]

/-- A line whose third field fails float conversion, at line 1. -/
def badLinesA : List String := ["1 1 abc 0 0 1 -1"]

/-- The same failing token on a different line (line 3) with different
raw content. -/
def badLinesB : List String := ["# header", "# more", "2 9 abc 5 5 2 0"]

/-- The two-node scenario of the specification (§8). -/
def scenarioLines : List String := ["1 1 0.0 0.0 0.0 1.0 -1", "2 3 1.0 0.0 0.0 0.5 1"]

/-- The first record of `dupLines`. -/
def rec5a : NodeRecord := { id := 5, type := 1, xyz := (0, 0, 0), radius := 1, parent_id := -1 }

/-- The second record of `dupLines`: same id, different content. -/
def rec5b : NodeRecord := { id := 5, type := 1, xyz := (9, 9, 9), radius := 2, parent_id := -1 }

/-- A record that is its own parent. -/
def recSelf : NodeRecord := { id := 1, type := 1, xyz := (0, 0, 0), radius := 1, parent_id := 1 }

/-- The child record of `forwardLines`. -/
def recChild : NodeRecord :=
  { id := 2, type := 3, xyz := (1, 0, 0), radius := mkRat 1 2, parent_id := 1 }

/-- The state after inserting `rec5a` into a fresh table. -/
def stDup : SwcState := insertRecord initState rec5a

example : pySplit "1 1  0 0\t0 1 -1" = ["1", "1", "0", "0", "0", "1", "-1"] := by decide
example : parsePyInt "-1" = some (-1) := by decide
example : parsePyInt "abc" = none := by decide
example : parsePyFloat "0.5" = some (mkRat 1 2) := by decide
example : parsePyFloat "abc" = none := by decide
example : parsePyFloat "5.e1" = some (mkRat 50 1) := by decide
example : parseLine "# a comment" = .ok none := by decide
example : parseLine "1 1 0 0" = .ok none := by decide
example : exceptOk (load_swc_file initState ["1 1 0.0 0.0 0.0 1.0 -1", "2 3 1.0 0.0 0.0 0.5 1"]) = true := by decide
example : (getState (load_swc_file initState ["1 1 0.0 0.0 0.0 1.0 -1", "2 3 1.0 0.0 0.0 0.5 1"])).edges = [(1, 0)] := by decide

/-! ### Dictionary model lemmas -/

theorem dictLookup_eq_none_iff {α : Type} (l : List (Int × α)) (k : Int) :
    dictLookup l k = none ↔ k ∉ l.map Prod.fst := by
  induction l with
  | nil => simp [dictLookup]
  | cons p rest ih =>
    simp only [dictLookup, List.map_cons, List.mem_cons]
    by_cases h : p.1 = k
    · simp [h]
    · rw [if_neg h, ih]
      constructor
      · intro hn hc
        rcases hc with hc | hc
        · exact h hc.symm
        · exact hn hc
      · intro hn hc
        exact hn (Or.inr hc)

theorem dictLookup_append_left {α : Type} (l m : List (Int × α)) (k : Int)
    (h : k ∉ l.map Prod.fst) : dictLookup (l ++ m) k = dictLookup m k := by
  induction l with
  | nil => rfl
  | cons p rest ih =>
    simp only [List.map_cons, List.mem_cons] at h
    push_neg at h
    simp only [List.cons_append, dictLookup, if_neg (fun hp : p.1 = k => h.1 hp.symm)]
    exact ih h.2

theorem dictLookup_replace {α : Type} (l : List (Int × α)) (k : Int) (v : α)
    (h : k ∈ l.map Prod.fst) :
    dictLookup (l.map (fun p => if p.1 = k then (k, v) else p)) k = some v := by
  induction l with
  | nil => simp at h
  | cons p rest ih =>
    by_cases hp : p.1 = k
    · simp [dictLookup, hp]
    · simp only [List.map_cons, List.mem_cons] at h
      have hr : k ∈ rest.map Prod.fst := by
        rcases h with h1 | h2
        · exact absurd h1.symm hp
        · exact h2
      simp [dictLookup, hp, ih hr]

theorem dictLookup_dictInsert_self {α : Type} (l : List (Int × α)) (k : Int) (v : α) :
    dictLookup (dictInsert l k v) k = some v := by
  unfold dictInsert
  by_cases h : k ∈ l.map Prod.fst
  · rw [if_pos h]
    exact dictLookup_replace l k v h
  · rw [if_neg h, dictLookup_append_left l _ k h]
    simp [dictLookup]

theorem dictInsert_of_not_mem {α : Type} (l : List (Int × α)) (k : Int) (v : α)
    (h : k ∉ l.map Prod.fst) : dictInsert l k v = l ++ [(k, v)] := by
  simp [dictInsert, h]

theorem length_dictInsert_of_mem {α : Type} (l : List (Int × α)) (k : Int) (v : α)
    (h : k ∈ l.map Prod.fst) : (dictInsert l k v).length = l.length := by
  simp [dictInsert, h]

theorem keys_dictInsert {α : Type} (l : List (Int × α)) (k : Int) (v : α) :
    (dictInsert l k v).map Prod.fst =
      if k ∈ l.map Prod.fst then l.map Prod.fst else l.map Prod.fst ++ [k] := by
  unfold dictInsert
  by_cases h : k ∈ l.map Prod.fst
  · rw [if_pos h, if_pos h, List.map_map]
    apply List.map_congr_left
    intro p _
    by_cases hp : p.1 = k
    · simp [hp]
    · simp [hp]
  · rw [if_neg h, if_neg h]
    simp

/-! ### Edge resolution lemmas -/

theorem foldl_edgeStep_eq (index : List (Int × Nat)) (nodes : List (Int × NodeRecord))
    (acc : List (Nat × Nat)) :
    nodes.foldl (edgeStep index) acc = acc ++ nodes.filterMap (edgeOf index) := by
  induction nodes generalizing acc with
  | nil => simp
  | cons p rest ih =>
    cases he : edgeOf index p <;>
      simp [List.foldl_cons, edgeStep, he, ih, List.filterMap_cons]

theorem resolveEdges_eq_filterMap (nodes : List (Int × NodeRecord))
    (index : List (Int × Nat)) :
    resolveEdges nodes index = nodes.filterMap (edgeOf index) := by
  simpa using foldl_edgeStep_eq index nodes []

theorem resolveEdges_length (nodes : List (Int × NodeRecord)) (index : List (Int × Nat)) :
    (resolveEdges nodes index).length + rootCount nodes index = nodes.length := by
  rw [resolveEdges_eq_filterMap]
  unfold rootCount
  induction nodes with
  | nil => rfl
  | cons p rest ih =>
    cases hd : dictLookup index p.2.parent_id <;>
      simp [List.filterMap_cons, edgeOf, hd, List.countP_cons, ih] <;> omega

/-! ### Reading-loop lemmas -/

theorem parseLines_nil (st : SwcState) : parseLines st [] = .ok st := rfl

theorem parseLines_cons (st : SwcState) (line : String) (rest : List String) :
    parseLines st (line :: rest) =
      match stepLine st line with
      | .error e => .error e
      | .ok st2 => parseLines st2 rest := rfl

theorem acceptedRecords_nil : acceptedRecords [] = [] := rfl

theorem acceptedRecords_cons (line : String) (rest : List String) :
    acceptedRecords (line :: rest) =
      match parseLine line with
      | .ok (some r) => r :: acceptedRecords rest
      | .ok none => acceptedRecords rest
      | .error _ => acceptedRecords rest := by
  unfold acceptedRecords
  rw [List.filterMap_cons]
  cases parseLine line with
  | error e => rfl
  | ok o => cases o <;> rfl

theorem parseLines_first_node (lines : List String) :
    ∀ st st' : SwcState, parseLines st lines = .ok st' →
      st'.first_node =
        match st.first_node with
        | some f => some f
        | none => (acceptedRecords lines).head? := by
  induction lines with
  | nil =>
    intro st st' h
    rw [parseLines_nil] at h
    injection h with h2
    subst h2
    cases st.first_node <;> rfl
  | cons line rest ih =>
    intro st st' h
    rw [parseLines_cons] at h
    cases hs : stepLine st line with
    | error e => rw [hs] at h; exact Except.noConfusion h
    | ok st2 =>
      rw [hs] at h
      have h2 := ih st2 st' h
      unfold stepLine at hs
      rw [acceptedRecords_cons]
      cases hp : parseLine line with
      | error e => rw [hp] at hs; exact Except.noConfusion hs
      | ok o =>
        rw [hp] at hs
        cases o with
        | none =>
          injection hs with hs2
          subst hs2
          exact h2
        | some r =>
          injection hs with hs2
          subst hs2
          rw [h2]
          cases hf : st.first_node <;> simp [insertRecord, hf]

theorem parseLines_keys (lines : List String) :
    ∀ st st' : SwcState, parseLines st lines = .ok st' →
      st.nodes.map Prod.fst = st.index_from_id.map Prod.fst →
      st'.nodes.map Prod.fst = st'.index_from_id.map Prod.fst := by
  induction lines with
  | nil =>
    intro st st' h hk
    rw [parseLines_nil] at h
    injection h with h2
    subst h2
    exact hk
  | cons line rest ih =>
    intro st st' h hk
    rw [parseLines_cons] at h
    cases hs : stepLine st line with
    | error e => rw [hs] at h; exact Except.noConfusion h
    | ok st2 =>
      rw [hs] at h
      refine ih st2 st' h ?_
      unfold stepLine at hs
      cases hp : parseLine line with
      | error e => rw [hp] at hs; exact Except.noConfusion hs
      | ok o =>
        rw [hp] at hs
        cases o with
        | none =>
          injection hs with hs2
          subst hs2
          exact hk
        | some r =>
          injection hs with hs2
          subst hs2
          show (insertRecord st r).nodes.map Prod.fst
            = (insertRecord st r).index_from_id.map Prod.fst
          simp only [insertRecord]
          rw [keys_dictInsert, keys_dictInsert, hk]

theorem parseLines_append_of_nodup (lines : List String) :
    ∀ st st' : SwcState, parseLines st lines = .ok st' →
      (∀ r ∈ acceptedRecords lines, r.id ∉ st.nodes.map Prod.fst) →
      ((acceptedRecords lines).map NodeRecord.id).Nodup →
      st'.nodes = st.nodes ++ (acceptedRecords lines).map (fun r => (r.id, r)) ∧
      st'.vertices = st.vertices ++ (acceptedRecords lines).map NodeRecord.xyz := by
  induction lines with
  | nil =>
    intro st st' h _ _
    rw [parseLines_nil] at h
    injection h with h2
    subst h2
    simp [acceptedRecords_nil]
  | cons line rest ih =>
    intro st st' h hfresh hnd
    rw [parseLines_cons] at h
    cases hs : stepLine st line with
    | error e => rw [hs] at h; exact Except.noConfusion h
    | ok st2 =>
      rw [hs] at h
      unfold stepLine at hs
      cases hp : parseLine line with
      | error e => rw [hp] at hs; exact Except.noConfusion hs
      | ok o =>
        rw [hp] at hs
        cases o with
        | none =>
          injection hs with hs2
          subst hs2
          have hacc : acceptedRecords (line :: rest) = acceptedRecords rest := by
            rw [acceptedRecords_cons, hp]
          rw [hacc] at hfresh hnd ⊢
          exact ih st st' h hfresh hnd
        | some r =>
          injection hs with hs2
          subst hs2
          have hacc : acceptedRecords (line :: rest) = r :: acceptedRecords rest := by
            rw [acceptedRecords_cons, hp]
          rw [hacc] at hfresh hnd ⊢
          have hrid : r.id ∉ st.nodes.map Prod.fst := hfresh r (List.mem_cons_self r _)
          have hnodes2 : (insertRecord st r).nodes = st.nodes ++ [(r.id, r)] := by
            simp [insertRecord, dictInsert_of_not_mem st.nodes r.id r hrid]
          have hverts2 : (insertRecord st r).vertices = st.vertices ++ [r.xyz] := rfl
          have hkeys2 : (insertRecord st r).nodes.map Prod.fst
              = st.nodes.map Prod.fst ++ [r.id] := by
            rw [hnodes2]; simp
          simp only [List.map_cons, List.nodup_cons] at hnd
          have hfresh2 : ∀ r2 ∈ acceptedRecords rest,
              r2.id ∉ (insertRecord st r).nodes.map Prod.fst := by
            intro r2 hr2
            rw [hkeys2]
            intro hmem
            rcases List.mem_append.mp hmem with hmem1 | hmem2
            · exact hfresh r2 (List.mem_cons_of_mem _ hr2) hmem1
            · have he : r2.id = r.id := by simpa using hmem2
              have : r.id ∈ (acceptedRecords rest).map NodeRecord.id := by
                rw [← he]
                exact List.mem_map_of_mem _ hr2
              exact hnd.1 this
          obtain ⟨hn, hv⟩ := ih (insertRecord st r) st' h hfresh2 hnd.2
          constructor
          · rw [hn, hnodes2]
            simp
          · rw [hv, hverts2]
            simp

/-! ### Field-access lemmas -/

theorem getD_take_of_lt {α : Type} (l : List α) (d : α) (n i : Nat) (h : i < n) :
    (l.take n).getD i d = l.getD i d := by
  induction l generalizing n i with
  | nil => simp
  | cons a rest ih =>
    cases n with
    | zero => omega
    | succ n =>
      cases i with
      | zero => rfl
      | succ i =>
        simp only [List.take_succ_cons, List.getD_cons_succ]
        exact ih n i (by omega)

theorem getD_mem_of_lt {α : Type} (l : List α) (i : Nat) (d : α) (h : i < l.length) :
    l.getD i d ∈ l := by
  induction l generalizing i with
  | nil => simp at h
  | cons a rest ih =>
    cases i with
    | zero => simp
    | succ i =>
      simp only [List.getD_cons_succ]
      exact List.mem_cons_of_mem a (ih i (by simpa using h))

theorem parseFields_take_seven (fields : List String) :
    parseFields (fields.take 7) = parseFields fields := by
  unfold parseFields
  rw [getD_take_of_lt fields "" 7 0 (by omega), getD_take_of_lt fields "" 7 1 (by omega),
    getD_take_of_lt fields "" 7 2 (by omega), getD_take_of_lt fields "" 7 3 (by omega),
    getD_take_of_lt fields "" 7 4 (by omega), getD_take_of_lt fields "" 7 5 (by omega),
    getD_take_of_lt fields "" 7 6 (by omega)]

theorem toIntE_error (s : String) (e : ParseError) (h : toIntE s = .error e) :
    e = .intErr s := by
  unfold toIntE at h
  cases hp : parsePyInt s <;> rw [hp] at h
  · injection h with h2
    exact h2.symm
  · exact Except.noConfusion h

theorem toFloatE_error (s : String) (e : ParseError) (h : toFloatE s = .error e) :
    e = .floatErr s := by
  unfold toFloatE at h
  cases hp : parsePyFloat s <;> rw [hp] at h
  · injection h with h2
    exact h2.symm
  · exact Except.noConfusion h

theorem parseFields_error_token (fields : List String) (e : ParseError)
    (h : parseFields fields = .error e) :
    ∃ i, i < 7 ∧ (e = ParseError.intErr (fields.getD i "") ∨
      e = ParseError.floatErr (fields.getD i "")) := by
  unfold parseFields at h
  cases h0 : toIntE (fields.getD 0 "") <;> rw [h0] at h
  case error e0 =>
    injection h with h2
    exact ⟨0, by omega, Or.inl (h2 ▸ toIntE_error _ _ h0)⟩
  case ok v0 =>
  cases h1 : toIntE (fields.getD 1 "") <;> rw [h1] at h
  case error e1 =>
    injection h with h2
    exact ⟨1, by omega, Or.inl (h2 ▸ toIntE_error _ _ h1)⟩
  case ok v1 =>
  cases h2 : toFloatE (fields.getD 2 "") <;> rw [h2] at h
  case error e2 =>
    injection h with hx
    exact ⟨2, by omega, Or.inr (hx ▸ toFloatE_error _ _ h2)⟩
  case ok v2 =>
  cases h3 : toFloatE (fields.getD 3 "") <;> rw [h3] at h
  case error e3 =>
    injection h with hx
    exact ⟨3, by omega, Or.inr (hx ▸ toFloatE_error _ _ h3)⟩
  case ok v3 =>
  cases h4 : toFloatE (fields.getD 4 "") <;> rw [h4] at h
  case error e4 =>
    injection h with hx
    exact ⟨4, by omega, Or.inr (hx ▸ toFloatE_error _ _ h4)⟩
  case ok v4 =>
  cases h5 : toFloatE (fields.getD 5 "") <;> rw [h5] at h
  case error e5 =>
    injection h with hx
    exact ⟨5, by omega, Or.inr (hx ▸ toFloatE_error _ _ h5)⟩
  case ok v5 =>
  cases h6 : toIntE (fields.getD 6 "") <;> rw [h6] at h
  case error e6 =>
    injection h with hx
    exact ⟨6, by omega, Or.inl (hx ▸ toIntE_error _ _ h6)⟩
  case ok v6 =>
  exact Except.noConfusion h

/-! ### Geometry lemmas -/

theorem quadCenter_nodeQuad (d : NodeRecord) : quadCenter (nodeQuad d) = d.xyz := by
  obtain ⟨i, t, ⟨x, y, z⟩, r, p⟩ := d
  simp only [quadCenter, nodeQuad, List.getD_cons_zero, List.getD_cons_succ, Prod.mk.injEq]
  refine ⟨by ring, by ring, by ring⟩

theorem markerDataset_map_fst (nodes : List (Int × NodeRecord)) :
    (markerDataset nodes).map Prod.fst = nodes.map (fun p => p.2.xyz) := by
  unfold markerDataset
  rw [List.map_map]
  apply List.map_congr_left
  intro p _
  simp [quadCenter_nodeQuad]

/-! ### Loader shape lemmas -/

theorem getState_load_edges (self : SwcState) (lines : List String) :
    (getState (load_swc_file self lines)).edges
      = resolveEdges (getState (load_swc_file self lines)).nodes
          (getState (load_swc_file self lines)).index_from_id := by
  unfold load_swc_file getState
  cases parseLines initState lines <;> rfl

theorem load_ok_parseLines (self : SwcState) (lines : List String) (st' : SwcState)
    (h : load_swc_file self lines = .ok st') :
    ∃ st1, parseLines initState lines = .ok st1 ∧
      st' = { st1 with edges := resolveEdges st1.nodes st1.index_from_id } := by
  unfold load_swc_file at h
  cases hp : parseLines initState lines <;> rw [hp] at h
  · exact Except.noConfusion h
  · injection h with h2
    exact ⟨_, rfl, h2.symm⟩

theorem exceptOk_load_ok (self : SwcState) (lines : List String)
    (h : exceptOk (load_swc_file self lines) = true) :
    load_swc_file self lines = .ok (getState (load_swc_file self lines)) := by
  cases hl : load_swc_file self lines with
  | error e =>
    rw [hl] at h
    simp [exceptOk] at h
  | ok st => rfl

/-! ### Claim theorems -/

/-- C1, counterexample: the claim says a record whose `parent_id`
equals its own `id` yields no edge.  On the one-record file
`"1 1 0 0 0 1 1"` (which parses without error) the code emits the
self-loop edge `(0, 0)`: the record's own id is a key of the positional
index, and that is the only test lines 91-95 perform. -/
theorem C1_counterexample :
    (getState (load_swc_file initState selfLoopLines)).edges = [(0, 0)] := by decide

/-- C1 (amended): for every record of the resolved table whose
`parent_id` equals its own id, the resolver emits the self-loop edge
`(i, i)` at the record's positional index `i` — self-loops are not
dropped, because a self-referential parent id is always present in the
index. -/
theorem C1_self_loop_edge (nodes : List (Int × NodeRecord)) (index : List (Int × Nat))
    (k : Int) (d : NodeRecord) (i : Nat)
    (hmem : (k, d) ∈ nodes) (hself : d.parent_id = k)
    (hidx : dictLookup index k = some i) :
    (i, i) ∈ resolveEdges nodes index := by
  rw [resolveEdges_eq_filterMap]
  refine List.mem_filterMap.mpr ⟨(k, d), hmem, ?_⟩
  simp [edgeOf, hself, hidx]

/-- Witness for C1 (amended) at a concrete one-record table. -/
theorem C1_self_loop_edge_witness :
    ((1 : Int), recSelf) ∈ [((1 : Int), recSelf)] ∧ recSelf.parent_id = 1 ∧
      dictLookup [((1 : Int), 0)] 1 = some 0 ∧
      (0, 0) ∈ resolveEdges [((1 : Int), recSelf)] [((1 : Int), 0)] :=
  ⟨by decide, by decide, by decide,
    C1_self_loop_edge [((1 : Int), recSelf)] [((1 : Int), 0)] 1 recSelf 0
      (by decide) (by decide) (by decide)⟩

/-- C2, counterexample: on the specification's own duplicate-id
scenario (`dupLines`), the id-to-position index for id 5 ends at the
second occurrence's position 1, not at the first-seen position 0, and
the vertex list has gained a second slot — lines 85-86 run
unconditionally, so neither the index mapping nor the vertex list of
the first occurrence is "kept unchanged".  Content is last-wins as
claimed. -/
theorem C2_counterexample :
    (getState (load_swc_file initState dupLines)).index_from_id = [(5, 1)] ∧
    (getState (load_swc_file initState dupLines)).vertices
      = [((0 : Rat), (0 : Rat), (0 : Rat)), ((9 : Rat), (9 : Rat), (9 : Rat))] ∧
    (getState (load_swc_file initState dupLines)).nodes = [(5, rec5b)] := by
  refine ⟨by decide, by decide, by decide⟩

/-- C2 (amended): when a record whose id was already seen is inserted,
the table keeps a single entry for that id whose content is the new
record (last-wins), a fresh vertex slot is appended for the new line,
and the id-to-position index is updated to the new occurrence's
position (last-wins position, not first-wins). -/
theorem C2_duplicate_insert (st : SwcState) (r : NodeRecord)
    (hseen : r.id ∈ st.nodes.map Prod.fst) :
    (insertRecord st r).nodes.length = st.nodes.length ∧
    dictLookup (insertRecord st r).nodes r.id = some r ∧
    (insertRecord st r).vertices = st.vertices ++ [r.xyz] ∧
    dictLookup (insertRecord st r).index_from_id r.id = some st.node_count := by
  refine ⟨?_, ?_, rfl, ?_⟩
  · simp only [insertRecord]
    exact length_dictInsert_of_mem st.nodes r.id r hseen
  · simp only [insertRecord]
    exact dictLookup_dictInsert_self st.nodes r.id r
  · simp only [insertRecord]
    exact dictLookup_dictInsert_self st.index_from_id r.id st.node_count

/-- Witness for C2 (amended) at the concrete duplicate-id state. -/
theorem C2_duplicate_insert_witness :
    (5 : Int) ∈ stDup.nodes.map Prod.fst ∧
    ((insertRecord stDup rec5b).nodes.length = stDup.nodes.length ∧
      dictLookup (insertRecord stDup rec5b).nodes (5 : Int) = some rec5b ∧
      (insertRecord stDup rec5b).vertices = stDup.vertices ++ [rec5b.xyz] ∧
      dictLookup (insertRecord stDup rec5b).index_from_id (5 : Int)
        = some stDup.node_count) :=
  ⟨by decide, C2_duplicate_insert stDup rec5b (by decide)⟩

/-- C3, counterexample: the claim asserts vertex/marker alignment for
every input that parses without error, explicitly including duplicate
ids.  On `dupLines` (which parses without error) the skeleton vertex
list has 2 entries (one per accepted line, lines 85) while the marker
dataset has 1 entry (one per distinct table id, line 106) — the lengths
differ, so positional alignment fails. -/
theorem C3_counterexample :
    exceptOk (load_swc_file initState dupLines) = true ∧
    (getState (load_swc_file initState dupLines)).vertices.length = 2 ∧
    (markerDataset (getState (load_swc_file initState dupLines)).nodes).length = 1 := by
  refine ⟨by decide, by decide, by decide⟩

/-- C3 (amended): for every input that parses without error and whose
accepted records carry pairwise-distinct ids, the marker dataset and
the skeleton vertex list are positionally aligned: marker `i`'s center
equals vertex `i`, and the two lists have the same length. -/
theorem C3_aligned (lines : List String)
    (hok : exceptOk (load_swc_file initState lines) = true)
    (hnd : ((acceptedRecords lines).map NodeRecord.id).Nodup) :
    (markerDataset (getState (load_swc_file initState lines)).nodes).map Prod.fst
      = (getState (load_swc_file initState lines)).vertices ∧
    (markerDataset (getState (load_swc_file initState lines)).nodes).length
      = (getState (load_swc_file initState lines)).vertices.length := by
  have hl := exceptOk_load_ok initState lines hok
  obtain ⟨st1, hp, hst⟩ := load_ok_parseLines initState lines _ hl
  have hnodes : (getState (load_swc_file initState lines)).nodes = st1.nodes := by
    rw [hst]
  have hverts : (getState (load_swc_file initState lines)).vertices = st1.vertices := by
    rw [hst]
  obtain ⟨hn, hv⟩ := parseLines_append_of_nodup lines initState st1 hp
    (by intro r _ hmem; simp [initState] at hmem) hnd
  constructor
  · rw [hnodes, hverts, markerDataset_map_fst, hn, hv]
    simp [List.map_map, initState, Function.comp]
  · rw [hnodes, hverts]
    unfold markerDataset
    rw [List.length_map, hn, hv]
    simp [initState]

/-- Witness for C3 (amended) at the specification's two-node scenario. -/
theorem C3_aligned_witness :
    exceptOk (load_swc_file initState scenarioLines) = true ∧
    ((acceptedRecords scenarioLines).map NodeRecord.id).Nodup ∧
    ((markerDataset (getState (load_swc_file initState scenarioLines)).nodes).map Prod.fst
        = (getState (load_swc_file initState scenarioLines)).vertices ∧
      (markerDataset (getState (load_swc_file initState scenarioLines)).nodes).length
        = (getState (load_swc_file initState scenarioLines)).vertices.length) :=
  ⟨by decide, by decide, C3_aligned scenarioLines (by decide) (by decide)⟩

/-- C4: the resolver emits, for every record of the resolved table in
insertion order with no sorting, exactly one edge
`(child_index, parent_index)` when and only when the record's
`parent_id` is a key of the positional index — `resolveEdges` equals
the specification-side `resolverSpec`, whose only test is index
membership, so the literal `-1` sentinel receives no special
treatment; and the loader's edge list is exactly that resolver output
on the loader's table and index. -/
theorem C4_resolver_membership :
    (∀ (nodes : List (Int × NodeRecord)) (index : List (Int × Nat)),
      resolveEdges nodes index = resolverSpec nodes index) ∧
    (∀ (self : SwcState) (lines : List String),
      (getState (load_swc_file self lines)).edges
        = resolverSpec (getState (load_swc_file self lines)).nodes
            (getState (load_swc_file self lines)).index_from_id) := by
  constructor
  · intro nodes index
    rw [resolveEdges_eq_filterMap]
    rfl
  · intro self lines
    rw [getState_load_edges, resolveEdges_eq_filterMap]
    rfl

/-- C5, counterexample: the claim says the error carries the line
number and the raw content of the offending line.  The runs on
`badLinesA` (offending line at line number 1, raw `"1 1 abc 0 0 1 -1"`)
and `badLinesB` (offending line at line number 3, raw
`"2 9 abc 5 5 2 0"`) abort with the *identical* error value, carrying
only the conversion kind and the offending token `"abc"` — so the error
determines neither the line number nor the raw line content. -/
theorem C5_counterexample :
    load_swc_file initState badLinesA = .error (.floatErr "abc") ∧
    load_swc_file initState badLinesB = .error (.floatErr "abc") := by
  refine ⟨by decide, by decide⟩

/-- C5 (amended): a line starting with `#` or splitting into fewer
than seven fields is silently skipped (no error, no record); a
conversion error on a line aborts the whole reading loop, and the
error it raises carries the conversion kind and the offending token
(one of the line's fields) — but not the line number or the raw line. -/
theorem C5_line_handling (line : String) (st : SwcState) (rest : List String)
    (e : ParseError) :
    (startsWithHash line = true → parseLine line = .ok none) ∧
    ((pySplit line).length < 7 → parseLine line = .ok none) ∧
    (parseLine line = .error e → parseLines st (line :: rest) = .error e) ∧
    (parseLine line = .error e →
      ∃ t, (e = .intErr t ∨ e = .floatErr t) ∧ t ∈ pySplit line) := by
  refine ⟨?_, ?_, ?_, ?_⟩
  · intro hc
    unfold parseLine
    rw [if_pos hc]
  · intro h7
    unfold parseLine
    by_cases hc : startsWithHash line
    · rw [if_pos hc]
    · rw [if_neg hc, if_pos h7]
  · intro he
    rw [parseLines_cons]
    unfold stepLine
    rw [he]
  · intro he
    unfold parseLine at he
    by_cases hc : startsWithHash line
    · rw [if_pos hc] at he
      exact Except.noConfusion he
    · rw [if_neg hc] at he
      by_cases h7 : (pySplit line).length < 7
      · rw [if_pos h7] at he
        exact Except.noConfusion he
      · rw [if_neg h7] at he
        have hf : parseFields (pySplit line) = .error e := by
          cases hpf : parseFields (pySplit line) with
          | error e2 =>
            rw [hpf] at he
            simp only [Except.map] at he
            injection he with h3
            rw [h3]
          | ok r =>
            rw [hpf] at he
            simp only [Except.map] at he
            exact Except.noConfusion he
        obtain ⟨i, hi, hcase⟩ := parseFields_error_token (pySplit line) e hf
        refine ⟨(pySplit line).getD i "", hcase, ?_⟩
        exact getD_mem_of_lt _ i "" (by omega)

/-- Witness for C5 (amended): concrete skip and abort behaviours. -/
theorem C5_line_handling_witness :
    parseLines initState ["1 1 abc 0 0 1 -1"] = .error (.floatErr "abc") ∧
    parseLine "# comment" = .ok none ∧
    parseLine "1 2 3" = .ok none :=
  ⟨(C5_line_handling "1 1 abc 0 0 1 -1" initState [] (.floatErr "abc")).2.2.1 (by decide),
    (C5_line_handling "# comment" initState [] (.intErr "")).1 (by decide),
    (C5_line_handling "1 2 3" initState [] (.intErr "")).2.1 (by decide)⟩

/-- C6: for every run of the loader, the edge count plus the number of
roots (records whose `parent_id` is not a key of the positional index)
equals the number of table entries, i.e. edges = N − roots; moreover
the table's keys and the index's keys coincide, so "absent from the
index" is "absent from the table".  The claim's extra hypotheses
(pairwise-distinct ids, no self-loops, forest shape) are not needed. -/
theorem C6_edge_count (self : SwcState) (lines : List String) :
    (getState (load_swc_file self lines)).edges.length
        + rootCount (getState (load_swc_file self lines)).nodes
            (getState (load_swc_file self lines)).index_from_id
      = (getState (load_swc_file self lines)).nodes.length ∧
    (getState (load_swc_file self lines)).edges.length
      = (getState (load_swc_file self lines)).nodes.length
          - rootCount (getState (load_swc_file self lines)).nodes
              (getState (load_swc_file self lines)).index_from_id ∧
    (getState (load_swc_file self lines)).nodes.map Prod.fst
      = (getState (load_swc_file self lines)).index_from_id.map Prod.fst := by
  have h1 : (getState (load_swc_file self lines)).edges.length
      + rootCount (getState (load_swc_file self lines)).nodes
          (getState (load_swc_file self lines)).index_from_id
      = (getState (load_swc_file self lines)).nodes.length := by
    rw [getState_load_edges]
    exact resolveEdges_length _ _
  refine ⟨h1, by omega, ?_⟩
  unfold load_swc_file getState
  cases hp : parseLines initState lines with
  | error e => rfl
  | ok st1 => exact parseLines_keys lines initState st1 hp rfl

/-- C7: forward references resolve.  Resolution runs only after every
line has been read, so for any record of the final table whose
`parent_id` is in the positional index, the edge from the record's
index to the parent's index is emitted — regardless of the order in
which the two records appeared in the file (in particular when the
child's line precedes the parent's line). -/
theorem C7_forward_reference (self : SwcState) (lines : List String) (k : Int)
    (d : NodeRecord) (i j : Nat)
    (hmem : (k, d) ∈ (getState (load_swc_file self lines)).nodes)
    (hi : dictLookup (getState (load_swc_file self lines)).index_from_id k = some i)
    (hj : dictLookup (getState (load_swc_file self lines)).index_from_id d.parent_id
      = some j) :
    (i, j) ∈ (getState (load_swc_file self lines)).edges := by
  rw [getState_load_edges, resolveEdges_eq_filterMap]
  refine List.mem_filterMap.mpr ⟨(k, d), hmem, ?_⟩
  simp [edgeOf, hj, hi]

/-- Witness for C7 on a file whose child line precedes its parent's
line: the edge `(0, 1)` from the child's index to the parent's index is
emitted. -/
theorem C7_forward_reference_witness :
    ((2 : Int), recChild) ∈ (getState (load_swc_file initState forwardLines)).nodes ∧
    (0, 1) ∈ (getState (load_swc_file initState forwardLines)).edges :=
  ⟨by decide,
    C7_forward_reference initState forwardLines 2 recChild 0 1
      (by decide) (by decide) (by decide)⟩

/-- C8: the parse pipeline is deterministic and idempotent.  The
loader's result does not depend on the importer state left by any
earlier run (lines 59-62 and 89 reset every field), so running it
twice on the same input yields identical results — in particular
identical vertex lists, edge lists and marker datasets. -/
theorem C8_state_independent (s₁ s₂ : SwcState) (lines : List String) :
    load_swc_file s₁ lines = load_swc_file s₂ lines ∧
    load_swc_file (getState (load_swc_file s₁ lines)) lines = load_swc_file s₁ lines ∧
    (getState (load_swc_file (getState (load_swc_file s₁ lines)) lines)).vertices
      = (getState (load_swc_file s₁ lines)).vertices ∧
    (getState (load_swc_file (getState (load_swc_file s₁ lines)) lines)).edges
      = (getState (load_swc_file s₁ lines)).edges ∧
    markerDataset (getState (load_swc_file (getState (load_swc_file s₁ lines)) lines)).nodes
      = markerDataset (getState (load_swc_file s₁ lines)).nodes :=
  ⟨rfl, rfl, rfl, rfl, rfl⟩

/-- C9: a non-comment line splitting into more than seven fields is
processed as a record built from its first seven fields; trailing
extra fields are ignored and cause neither a skip (the result is never
`.ok none`) nor an error of their own (the outcome is exactly that of
converting the first seven fields). -/
theorem C9_extra_fields (line : String)
    (hc : startsWithHash line = false) (h7 : 7 ≤ (pySplit line).length) :
    parseLine line = (parseFields ((pySplit line).take 7)).map some := by
  unfold parseLine
  rw [if_neg (by simp [hc]), if_neg (by omega), parseFields_take_seven]

/-- Witness for C9 at a nine-field line: the two trailing fields are
ignored. -/
theorem C9_extra_fields_witness :
    startsWithHash "1 1 0 0 0 1 -1 99 77" = false ∧
    7 ≤ (pySplit "1 1 0 0 0 1 -1 99 77").length ∧
    parseLine "1 1 0 0 0 1 -1 99 77"
      = (parseFields ((pySplit "1 1 0 0 0 1 -1 99 77").take 7)).map some :=
  ⟨by decide, by decide,
    C9_extra_fields "1 1 0 0 0 1 -1 99 77" (by decide) (by decide)⟩

/-- C10: the first-node reference is frozen at the first accepted data
line: after a successful load, `first_node` holds exactly the first
accepted record's original content, even when a later line reuses that
id and replaces the table entry (the reference is set once, at line
83-84, and never rebound). -/
theorem C10_first_node_frozen (lines : List String) (st' : SwcState)
    (hok : load_swc_file initState lines = .ok st') :
    st'.first_node = (acceptedRecords lines).head? := by
  obtain ⟨st1, hp, hst⟩ := load_ok_parseLines initState lines st' hok
  have h := parseLines_first_node lines initState st1 hp
  rw [hst]
  exact h

/-- Witness for C10 on the duplicate-id input: `first_node` still holds
the first line's record while the table entry holds the second line's
record. -/
theorem C10_first_node_frozen_witness :
    load_swc_file initState dupLines
        = .ok (getState (load_swc_file initState dupLines)) ∧
    (getState (load_swc_file initState dupLines)).first_node
        = (acceptedRecords dupLines).head? ∧
    (getState (load_swc_file initState dupLines)).first_node = some rec5a ∧
    dictLookup (getState (load_swc_file initState dupLines)).nodes 5 = some rec5b :=
  ⟨by decide, C10_first_node_frozen dupLines _ (by decide), by decide, by decide⟩
